import Mathlib

/-!
Shallow embedding of the signature-based forensic file carver
(`forensic_carver.py`): the JPEG / PDF / ZIP format plugins and the
scanning-and-carving engine (`Carver._scan`, `Carver._scan_memory_for_embedded`).

Bytes are modelled as `List Nat` (one element per byte; concrete inputs use
values < 256).  Python's `bytes.find` / `bytes.rfind` / slicing are modelled by
`pyFind`, `pyRFind` and `pySlice`; Python's `-1` failure value becomes `Option`.
All recursion is structural (loops carry explicit fuel bounds), so every
definition evaluates by kernel reduction.
-/

/-- First index `i` with `s ≤ i < s + n` and `p i = true`, scanning upward. -/
def find_first (p : Nat → Bool) : Nat → Nat → Option Nat
  | _, 0 => none
  | s, n + 1 => if p s then some s else find_first p (s + 1) n

/-- Last index `i < n` with `p i = true`, scanning downward. -/
def find_last (p : Nat → Bool) : Nat → Option Nat
  | 0 => none
  | n + 1 => if p n then some n else find_last p n

/-- Python slice `buf[a:b]` (with the usual clamping). -/
def pySlice (buf : List Nat) (a b : Nat) : List Nat := (buf.take b).drop a

/-- Python `buf.find(needle, start, stop)`: smallest absolute offset of a full
occurrence of `needle` inside `buf[start:stop]` (all needles in this
development are non-empty signature literals). -/
def pyFind (buf needle : List Nat) (start stop : Nat) : Option Nat :=
  find_first
    (fun i => decide (i + needle.length ≤ min stop buf.length) &&
      needle.isPrefixOf (buf.drop i))
    start (min stop buf.length - start)

/-- Python `buf.rfind(needle)`: largest offset of a full occurrence. -/
def pyRFind (buf needle : List Nat) : Option Nat :=
  find_last (fun i => needle.isPrefixOf (buf.drop i)) buf.length

/-- Python `needle in buf` (substring containment). -/
def pyContains (buf needle : List Nat) : Bool :=
  (pyFind buf needle 0 buf.length).isSome

/-- ASCII whitespace bytes recognised by Python's `bytes.strip()`. -/
def is_space_byte (c : Nat) : Bool :=
  c == 0x20 || c == 0x09 || c == 0x0a || c == 0x0d || c == 0x0b || c == 0x0c

/-- Python `bytes.strip()`. -/
def strip_bytes (l : List Nat) : List Nat :=
  ((l.dropWhile is_space_byte).reverse.dropWhile is_space_byte).reverse

/-- Value of a non-empty all-decimal digit string, `none` otherwise. -/
def digits_val (l : List Nat) : Option Nat :=
  if l.isEmpty then none
  else if l.all (fun c => decide (0x30 ≤ c) && decide (c ≤ 0x39)) then
    some (l.foldl (fun a c => a * 10 + (c - 0x30)) 0)
  else none

/-- Python `int(line)` on a byte string: optional sign, then decimal digits.
The one caller discards the parsed value, so finer points of Python's integer
parser are value-irrelevant here. -/
def parse_int (l : List Nat) : Option Int :=
  match l with
  | 0x2b :: rest => (digits_val rest).map Int.ofNat
  | 0x2d :: rest => (digits_val rest).map (fun n => -(Int.ofNat n : Int))
  | _ => (digits_val l).map Int.ofNat

/-- Python `bytes.splitlines()`, restricted to `\n` separators (the source
discards the parsed value in every outcome, so the additional separators
Python recognises cannot influence any modelled result). -/
def splitlines_lf : List Nat → List (List Nat)
  | [] => []
  | c :: rest =>
    match splitlines_lf rest with
    | [] => if c == 0x0a then [[]] else [[c]]
    | cur :: more => if c == 0x0a then [] :: cur :: more else (c :: cur) :: more

namespace JPEGPlugin

/-- `FF D8`, start of image. -/
def SOI : List Nat := [0xff, 0xd8]

/-- `FF D9`, end of image. -/
def EOI : List Nat := [0xff, 0xd9]

/-- `JPEGPlugin.headers()`. -/
def headers : List (List Nat) := [SOI]

/-- `JPEGPlugin.find_footer`: first `FF D9` at or after `h_off + 2` inside the
scan window; returns the offset just past it. -/
def find_footer (buf : List Nat) (h_off max_scan : Nat) : Option Nat :=
  let start := h_off + 2
  let end_search := min buf.length (h_off + max_scan)
  match pyFind buf EOI start end_search with
  | some eoi => some (eoi + 2)
  | none => none

/-- `JPEGPlugin.validate`: starts with SOI, ends with EOI, contains `FF DA`. -/
def validate (data : List Nat) : Bool :=
  SOI.isPrefixOf data && EOI.isSuffixOf data && pyContains data [0xff, 0xda]

/-- `JPEGPlugin.fragmented_try_bridge`: first EOI in `buf[h_off:end_search]`. -/
def fragmented_try_bridge (buf : List Nat) (h_off max_span chunk_size : Nat) : Option Nat :=
  let end_search := min buf.length (h_off + max_span)
  let scan := pySlice buf h_off end_search
  match pyFind scan EOI 0 scan.length with
  | some pos => some (h_off + pos + 2)
  | none => none

end JPEGPlugin

namespace PDFPlugin

/-- The literal `%PDF-`. -/
def header : List Nat := [0x25, 0x50, 0x44, 0x46, 0x2d]

/-- The literal `%%EOF`. -/
def EOF : List Nat := [0x25, 0x25, 0x45, 0x4f, 0x46]

/-- The literal `startxref`. -/
def startxref_sig : List Nat := [0x73, 0x74, 0x61, 0x72, 0x74, 0x78, 0x72, 0x65, 0x66]

/-- `PDFPlugin.headers()`. -/
def headers : List (List Nat) := [header]

/-- `PDFPlugin.find_footer`: last `%%EOF` inside `buf[h_off:end_search]`,
returning the absolute offset just past that token. -/
def find_footer (buf : List Nat) (h_off max_scan : Nat) : Option Nat :=
  let end_search := min buf.length (h_off + max_scan)
  let window := pySlice buf h_off end_search
  match pyRFind window EOF with
  | some last => some (h_off + last + EOF.length)
  | none => none

/-- The `try` block of `PDFPlugin.validate`: find the last `startxref` in the
tail and parse the line after it as an integer.  Every failure mode of the
Python block (no second line, non-numeric line) is `none`. -/
def startxref_parse (tail : List Nat) : Option Int :=
  match pyRFind tail startxref_sig with
  | none => none
  | some idx =>
    match splitlines_lf (tail.drop idx) with
    | _ :: line :: _ => parse_int (strip_bytes line)
    | _ => none

/-- `PDFPlugin.validate`: `%PDF-` prefix and a `%%EOF` occurrence are required;
the `startxref` probe over the last 2048 bytes returns `True` on the success
path and `True` on the `except` path alike, mirroring the source. -/
def validate (data : List Nat) : Bool :=
  if !(header.isPrefixOf data) then false
  else if !(pyContains data EOF) then false
  else
    let tail := data.drop (data.length - 2048)
    if pyContains tail startxref_sig then
      match startxref_parse tail with
      | some _ => true
      | none => true
    else true

/-- `PDFPlugin.fragmented_try_bridge`: first `%%EOF` in the window. -/
def fragmented_try_bridge (buf : List Nat) (h_off max_span chunk_size : Nat) : Option Nat :=
  let end_search := min buf.length (h_off + max_span)
  let window := pySlice buf h_off end_search
  match pyFind window EOF 0 window.length with
  | some pos => some (h_off + pos + EOF.length)
  | none => none

end PDFPlugin

namespace ZIPPlugin

/-- `PK\x03\x04`, Local File Header. -/
def LFH : List Nat := [0x50, 0x4b, 0x03, 0x04]

/-- `PK\x05\x06`, End of Central Directory. -/
def EOCD : List Nat := [0x50, 0x4b, 0x05, 0x06]

/-- `PK\x06\x07`, ZIP64 EOCD Locator. -/
def EOCD64_LOC : List Nat := [0x50, 0x4b, 0x06, 0x07]

/-- `PK\x06\x06`, ZIP64 EOCD Record. -/
def EOCD64 : List Nat := [0x50, 0x4b, 0x06, 0x06]

/-- `ZIPPlugin.headers()`. -/
def headers : List (List Nat) := [LFH]

/-- `ZIPPlugin._parse_eocd_end`: read the fixed 22-byte EOCD structure
`<4sHHHHIIH>` at `eocd_off_abs`; the trailing `H` (bytes 20-21, little endian)
is the comment length.  `struct.unpack` raises exactly when the sliced view is
not 22 bytes long, and the `except` path returns `eocd_off_abs + 22`. -/
def parse_eocd_end (buf : List Nat) (eocd_off_abs end_search_abs : Nat) : Nat :=
  if end_search_abs < eocd_off_abs + 22 then eocd_off_abs + 22
  else
    let view := pySlice buf eocd_off_abs (eocd_off_abs + 22)
    if view.length == 22 then
      let comlen := view.getD 20 0 + 256 * view.getD 21 0
      min (eocd_off_abs + 22 + comlen) buf.length
    else eocd_off_abs + 22

/-- `ZIPPlugin.find_footer`: last EOCD64-Locator / EOCD64-Record / EOCD in the
window decide the carve end exactly as in the source. -/
def find_footer (buf : List Nat) (h_off max_scan : Nat) : Option Nat :=
  let end_search := min buf.length (h_off + max_scan)
  let window := pySlice buf h_off end_search
  let pos64loc := pyRFind window EOCD64_LOC
  let pos64 := pyRFind window EOCD64
  let poseocd := pyRFind window EOCD
  match pos64loc, pos64 with
  | some _, some p64 =>
    match poseocd with
    | some pe => if p64 < pe then some (h_off + pe + 22) else some (h_off + p64 + 56)
    | none => some (h_off + p64 + 56)
  | _, _ =>
    match poseocd with
    | some pe => some (parse_eocd_end buf (h_off + pe) end_search)
    | none => none

/-- `ZIPPlugin.validate`: at least one LFH, and one of EOCD / EOCD64 /
EOCD64-Locator. -/
def validate (data : List Nat) : Bool :=
  pyContains data LFH &&
    (pyContains data EOCD || pyContains data EOCD64 || pyContains data EOCD64_LOC)

/-- `ZIPPlugin.fragmented_try_bridge`: first EOCD (parsed end) else first
EOCD64-Locator / EOCD64-Record (offset + signature length). -/
def fragmented_try_bridge (buf : List Nat) (h_off max_span chunk_size : Nat) : Option Nat :=
  let end_search := min buf.length (h_off + max_span)
  let window := pySlice buf h_off end_search
  match pyFind window EOCD 0 window.length with
  | some pos => some (parse_eocd_end buf (h_off + pos) end_search)
  | none =>
    match pyFind window EOCD64_LOC 0 window.length with
    | some pos => some (h_off + pos + EOCD64_LOC.length)
    | none =>
      match pyFind window EOCD64 0 window.length with
      | some pos => some (h_off + pos + EOCD64.length)
      | none => none

end ZIPPlugin

/-- The three concrete plugin classes registered in `FORMAT_PLUGINS`. -/
inductive Fmt where
  | jpeg
  | pdf
  | zip
  deriving DecidableEq

/-- The `fmt` tag string of each plugin. -/
def fmtName : Fmt → String
  | Fmt.jpeg => "jpeg"
  | Fmt.pdf => "pdf"
  | Fmt.zip => "zip"

/-- Extension table of `Carver._emit_file` (the `else → ".bin"` fallback is
unreachable for the three registered plugins). -/
def fmtExt : Fmt → String
  | Fmt.jpeg => ".jpg"
  | Fmt.pdf => ".pdf"
  | Fmt.zip => ".zip"

/-- Zero-padded lowercase-hex rendering, Python `f"{n:0{w}x}"`. -/
def hexPad (n w : Nat) : String :=
  let ds := Nat.toDigits 16 n
  String.mk (List.replicate (w - ds.length) '0' ++ ds)

namespace FormatPlugin

/-- Dispatch of `headers()` over the plugin variants. -/
def headers : Fmt → List (List Nat)
  | Fmt.jpeg => JPEGPlugin.headers
  | Fmt.pdf => PDFPlugin.headers
  | Fmt.zip => ZIPPlugin.headers

/-- Dispatch of `find_footer` over the plugin variants. -/
def find_footer : Fmt → List Nat → Nat → Nat → Option Nat
  | Fmt.jpeg => JPEGPlugin.find_footer
  | Fmt.pdf => PDFPlugin.find_footer
  | Fmt.zip => ZIPPlugin.find_footer

/-- Dispatch of `validate` over the plugin variants. -/
def validate : Fmt → List Nat → Bool
  | Fmt.jpeg => JPEGPlugin.validate
  | Fmt.pdf => PDFPlugin.validate
  | Fmt.zip => ZIPPlugin.validate

/-- Dispatch of `fragmented_try_bridge` over the plugin variants. -/
def fragmented_try_bridge : Fmt → List Nat → Nat → Nat → Nat → Option Nat
  | Fmt.jpeg => JPEGPlugin.fragmented_try_bridge
  | Fmt.pdf => PDFPlugin.fragmented_try_bridge
  | Fmt.zip => ZIPPlugin.fragmented_try_bridge

/-- `FormatPlugin.candidate_name` (the `buf` argument of the source is unused
there). -/
def candidate_name (f : Fmt) (h_off : Nat) : String :=
  fmtName f ++ "_" ++ hexPad h_off 12

end FormatPlugin

/-- `CarveRecord`.  The Python record stores only `out_path`; the byte content
written through the sink for this record is carried in `data`, so the sink's
output can be reasoned about. -/
structure CarveRecord where
  fmt : Fmt
  start : Nat
  end_ : Nat
  size : Nat
  out_path : String
  validated : Bool
  embedded_parent : Option String
  notes : Option String
  data : List Nat
  deriving DecidableEq

/-- `CarveOptions` (already-resolved configuration; `out_dir` as a plain
string; `scan_windows` as a total lookup returning `none` for absent keys,
read through `.getD max_size` exactly like the source's `dict.get`). -/
structure CarveOptions where
  out_dir : String
  formats : List Fmt
  max_size : Nat
  embedded_depth : Nat
  fragmented : Bool
  chunk_size : Nat
  scan_windows : Fmt → Option Nat

namespace Carver

/-- `Carver._emit_file`, reduced to the path it returns (the bytes it writes
are recorded in the `data` field of the corresponding record). -/
def emit_file (opts : CarveOptions) (f : Fmt) (name : String) : String :=
  opts.out_dir ++ "/carved/" ++ name ++ fmtExt f

/-- Inner `while True` loop of `Carver._scan_memory_for_embedded` for one
plugin.  `fuel` bounds the iteration count; the cursor strictly increases
every round, so `data.length + 1` rounds always suffice. -/
def scan_memory_for_embedded_loop (opts : CarveOptions) (f : Fmt) (parent_name : String)
    (data : List Nat) : Nat → Nat → List CarveRecord
  | 0, _ => []
  | fuel + 1, off =>
    match pyFind data ((FormatPlugin.headers f).headD []) off data.length with
    | none => []
    | some h =>
      match FormatPlugin.find_footer f data h ((opts.scan_windows f).getD opts.max_size) with
      | some e =>
        if h < e ∧ e - h ≤ opts.max_size then
          let sub := pySlice data h e
          let name := parent_name ++ "__" ++ fmtName f ++ "_" ++ hexPad h 8
          { fmt := f, start := h, end_ := e, size := e - h,
            out_path := emit_file opts f name,
            validated := FormatPlugin.validate f sub,
            embedded_parent := some parent_name,
            notes := some "embedded",
            data := sub } ::
          scan_memory_for_embedded_loop opts f parent_name data fuel e
        else scan_memory_for_embedded_loop opts f parent_name data fuel (h + 1)
      | none => scan_memory_for_embedded_loop opts f parent_name data fuel (h + 1)

/-- `Carver._scan_memory_for_embedded`: scan a carved blob with every enabled
plugin other than the parent's.  The `depth` argument is only logged by the
source; no recursive re-entry happens in this function. -/
def scan_memory_for_embedded (opts : CarveOptions) (parent_fmt : Fmt) (data : List Nat)
    (depth : Nat) (parent_name : String) : List CarveRecord :=
  ((opts.formats.filter (fun g => decide (g ≠ parent_fmt))).map
    (fun g => scan_memory_for_embedded_loop opts g parent_name data (data.length + 1) 0)).flatten

/-- Footer search plus the optional fragmented bridge of `Carver._scan`:
returns the candidate end offset together with the `used_fragment` flag. -/
def scan_step_end (opts : CarveOptions) (f : Fmt) (buf : List Nat) (h window : Nat) :
    Option Nat × Bool :=
  match FormatPlugin.find_footer f buf h window with
  | some e => (some e, false)
  | none =>
    if opts.fragmented then
      match FormatPlugin.fragmented_try_bridge f buf h window opts.chunk_size with
      | some e => (some e, true)
      | none => (none, false)
    else (none, false)

/-- Per-plugin `while off < total_len` loop of `Carver._scan` (explicit fuel,
as above; `buf.length + 1` rounds always suffice). -/
def scan_loop (opts : CarveOptions) (f : Fmt) (buf : List Nat) (depth : Nat)
    (embedded_source : Option String) : Nat → Nat → List CarveRecord
  | 0, _ => []
  | fuel + 1, off =>
    if off < buf.length then
      match pyFind buf ((FormatPlugin.headers f).headD []) off buf.length with
      | none => []
      | some h =>
        match scan_step_end opts f buf h ((opts.scan_windows f).getD opts.max_size) with
        | (some e, used_fragment) =>
          if h < e ∧ e - h ≤ opts.max_size then
            let data := pySlice buf h e
            let name := FormatPlugin.candidate_name f h
            { fmt := f, start := h, end_ := e, size := e - h,
              out_path := emit_file opts f name,
              validated := FormatPlugin.validate f data,
              embedded_parent := embedded_source,
              notes := if used_fragment then some "fragmented-bridge" else none,
              data := data } ::
            ((if depth < opts.embedded_depth then
                scan_memory_for_embedded opts f data (depth + 1) name
              else []) ++
              scan_loop opts f buf depth embedded_source fuel e)
          else scan_loop opts f buf depth embedded_source fuel (h + 1)
        | (none, _) => scan_loop opts f buf depth embedded_source fuel (h + 1)
    else []

/-- `Carver._scan`: every enabled plugin in order over one buffer, records in
append order. -/
def scan (opts : CarveOptions) (buf : List Nat) (depth : Nat)
    (embedded_source : Option String) : List CarveRecord :=
  ((opts.formats).map
    (fun f => scan_loop opts f buf depth embedded_source (buf.length + 1) 0)).flatten

/-- `Carver.run`, restricted to the scanning core (index writing is an
external collaborator). -/
def run (opts : CarveOptions) (image : List Nat) : List CarveRecord :=
  scan opts image 0 none

end Carver

/-! Concrete inputs used by the claim-level evaluations below. -/

/-- A ZIP image whose EOCD record (offset 4) lies within 22 bytes of the end
of the search window: 4-byte LFH directly followed by a bare EOCD signature. -/
def buf8 : List Nat := [0x50, 0x4b, 0x03, 0x04, 0x50, 0x4b, 0x05, 0x06]

/-- Options for the run over `buf8`: ZIP only, no recursion, no bridge. -/
def opts3 : CarveOptions :=
  { out_dir := "out", formats := [Fmt.zip], max_size := 100, embedded_depth := 0,
    fragmented := false, chunk_size := 4096, scan_windows := fun _ => some 100 }

/-- The single record the scanner emits on `buf8`: its `size` field is 26
although only 8 bytes exist, were sliced, validated and written. -/
def rec3 : CarveRecord :=
  { fmt := Fmt.zip, start := 0, end_ := 26, size := 26,
    out_path := "out/carved/zip_000000000000.zip", validated := true,
    embedded_parent := none, notes := none, data := buf8 }

/-- A ZIP image carrying all three tail signatures: LFH (0), EOCD64 record
signature (4), EOCD64 locator signature (8), and an EOCD (12) whose
comment-length field (bytes 32-33) is 7, followed by the 7-byte comment
`foo.txt`.  Total length 41. -/
def buf41 : List Nat :=
  [0x50, 0x4b, 0x03, 0x04] ++ [0x50, 0x4b, 0x06, 0x06] ++ [0x50, 0x4b, 0x06, 0x07] ++
    [0x50, 0x4b, 0x05, 0x06] ++ List.replicate 16 0 ++ [7, 0] ++
    [0x66, 0x6f, 0x6f, 0x2e, 0x74, 0x78, 0x74]

/-- A ZIP image with no ZIP64 signatures: LFH (0), then an EOCD (4) whose
comment-length field (bytes 24-25) is 7, followed by the comment `foo.txt`.
Total length 33 = 4 + 22 + 7. -/
def buf33 : List Nat :=
  [0x50, 0x4b, 0x03, 0x04] ++ [0x50, 0x4b, 0x05, 0x06] ++ List.replicate 16 0 ++ [7, 0] ++
    [0x66, 0x6f, 0x6f, 0x2e, 0x74, 0x78, 0x74]

/-- A minimal JPEG: SOI, SOS marker, EOI. -/
def jpeg6 : List Nat := [0xff, 0xd8, 0xff, 0xda, 0xff, 0xd9]

/-- A minimal PDF wrapping `jpeg6`: `%PDF-` + JPEG + `%%EOF`, 16 bytes. -/
def pdfBlob16 : List Nat :=
  [0x25, 0x50, 0x44, 0x46, 0x2d] ++ jpeg6 ++ [0x25, 0x25, 0x45, 0x4f, 0x46]

/-- A ZIP wrapping `pdfBlob16`: LFH + PDF + EOCD (zero comment length).
The JPEG sits two levels deep: inside the PDF, inside the ZIP. -/
def image42 : List Nat :=
  [0x50, 0x4b, 0x03, 0x04] ++ pdfBlob16 ++ [0x50, 0x4b, 0x05, 0x06] ++
    List.replicate 16 0 ++ [0, 0]

/-- Options for the run over `image42`: all plugins, `embedded_depth = 2`. -/
def opts2 : CarveOptions :=
  { out_dir := "out", formats := [Fmt.zip, Fmt.pdf, Fmt.jpeg], max_size := 1000,
    embedded_depth := 2, fragmented := false, chunk_size := 4096,
    scan_windows := fun _ => none }

/-- Top-level ZIP record of the `image42` run. -/
def rec2a : CarveRecord :=
  { fmt := Fmt.zip, start := 0, end_ := 42, size := 42,
    out_path := "out/carved/zip_000000000000.zip", validated := true,
    embedded_parent := none, notes := none, data := image42 }

/-- PDF carved (depth 1) while recursing into the ZIP blob. -/
def rec2b : CarveRecord :=
  { fmt := Fmt.pdf, start := 4, end_ := 20, size := 16,
    out_path := "out/carved/zip_000000000000__pdf_00000004.pdf", validated := true,
    embedded_parent := some "zip_000000000000", notes := some "embedded", data := pdfBlob16 }

/-- JPEG carved (depth 1) while recursing into the ZIP blob. -/
def rec2c : CarveRecord :=
  { fmt := Fmt.jpeg, start := 9, end_ := 15, size := 6,
    out_path := "out/carved/zip_000000000000__jpeg_00000009.jpg", validated := true,
    embedded_parent := some "zip_000000000000", notes := some "embedded", data := jpeg6 }

/-- Top-level PDF record of the `image42` run. -/
def rec2d : CarveRecord :=
  { fmt := Fmt.pdf, start := 4, end_ := 20, size := 16,
    out_path := "out/carved/pdf_000000000004.pdf", validated := true,
    embedded_parent := none, notes := none, data := pdfBlob16 }

/-- JPEG carved (depth 1) while recursing into the top-level PDF blob. -/
def rec2e : CarveRecord :=
  { fmt := Fmt.jpeg, start := 5, end_ := 11, size := 6,
    out_path := "out/carved/pdf_000000000004__jpeg_00000005.jpg", validated := true,
    embedded_parent := some "pdf_000000000004", notes := some "embedded", data := jpeg6 }

/-- Top-level JPEG record of the `image42` run. -/
def rec2f : CarveRecord :=
  { fmt := Fmt.jpeg, start := 9, end_ := 15, size := 6,
    out_path := "out/carved/jpeg_000000000009.jpg", validated := true,
    embedded_parent := none, notes := none, data := jpeg6 }

/-- A blob holding an LFH and a ZIP64-locator signature but no EOCD and no
ZIP64 record: `ZIPPlugin.find_footer` fails on it while
`ZIPPlugin.fragmented_try_bridge` succeeds. -/
def blob8 : List Nat := [0x50, 0x4b, 0x03, 0x04, 0x50, 0x4b, 0x06, 0x07]

/-- Options with the fragmented bridge enabled, PDF and ZIP plugins. -/
def opts6 : CarveOptions :=
  { out_dir := "out", formats := [Fmt.pdf, Fmt.zip], max_size := 100,
    embedded_depth := 3, fragmented := true, chunk_size := 4096,
    scan_windows := fun _ => none }


/-! Specifications of the search primitives. -/

theorem find_first_eq_some (p : Nat → Bool) :
    ∀ n s k, (find_first p s n = some k ↔
      s ≤ k ∧ k < s + n ∧ p k = true ∧ ∀ j, s ≤ j → j < k → p j = false) := by
  intro n
  induction n with
  | zero =>
    intro s k
    constructor
    · intro h; simp [find_first] at h
    · rintro ⟨h1, h2, -, -⟩; exact absurd h2 (by omega)
  | succ n ih =>
    intro s k
    simp only [find_first]
    cases hp : p s with
    | true =>
      simp only [if_true]
      constructor
      · intro h
        have hk : s = k := by simpa using h
        subst hk
        exact ⟨Nat.le_refl s, by omega, hp, fun j h1 h2 => absurd h2 (by omega)⟩
      · rintro ⟨h1, h2, h3, h4⟩
        have hk : s = k := by
          by_contra hne
          have hs : s < k := by omega
          have hf := h4 s (Nat.le_refl s) hs
          rw [hp] at hf
          exact Bool.noConfusion hf
        subst hk; rfl
    | false =>
      simp only [Bool.false_eq_true, if_false]
      rw [ih (s + 1) k]
      constructor
      · rintro ⟨h1, h2, h3, h4⟩
        refine ⟨by omega, by omega, h3, ?_⟩
        intro j hj1 hj2
        rcases Nat.eq_or_lt_of_le hj1 with h | h
        · exact h ▸ hp
        · exact h4 j h hj2
      · rintro ⟨h1, h2, h3, h4⟩
        have hne : s ≠ k := by
          intro e
          rw [← e] at h3
          rw [hp] at h3
          exact Bool.noConfusion h3
        refine ⟨by omega, by omega, h3, ?_⟩
        intro j hj1 hj2
        exact h4 j (by omega) hj2

theorem find_first_eq_none (p : Nat → Bool) :
    ∀ n s, (find_first p s n = none ↔ ∀ j, s ≤ j → j < s + n → p j = false) := by
  intro n
  induction n with
  | zero =>
    intro s
    constructor
    · intro _ j h1 h2; exact absurd h2 (by omega)
    · intro _; rfl
  | succ n ih =>
    intro s
    simp only [find_first]
    cases hp : p s with
    | true =>
      simp only [if_true]
      constructor
      · intro h; exact Option.noConfusion h
      · intro hall
        have hf := hall s (Nat.le_refl s) (by omega)
        rw [hp] at hf
        exact Bool.noConfusion hf
    | false =>
      simp only [Bool.false_eq_true, if_false]
      rw [ih (s + 1)]
      constructor
      · intro h j hj1 hj2
        rcases Nat.eq_or_lt_of_le hj1 with e | e
        · exact e ▸ hp
        · exact h j e (by omega)
      · intro h j hj1 hj2
        exact h j (by omega) (by omega)

theorem find_last_eq_some (p : Nat → Bool) :
    ∀ n k, (find_last p n = some k ↔
      k < n ∧ p k = true ∧ ∀ j, k < j → j < n → p j = false) := by
  intro n
  induction n with
  | zero =>
    intro k
    constructor
    · intro h; simp [find_last] at h
    · rintro ⟨h1, -, -⟩; exact absurd h1 (by omega)
  | succ n ih =>
    intro k
    simp only [find_last]
    cases hp : p n with
    | true =>
      simp only [if_true]
      constructor
      · intro h
        have hk : n = k := by simpa using h
        subst hk
        exact ⟨by omega, hp, fun j h1 h2 => absurd h1 (by omega)⟩
      · rintro ⟨h1, h2, h3⟩
        have hk : n = k := by
          by_contra hne
          have hs : k < n := by omega
          have hf := h3 n hs (by omega)
          rw [hp] at hf
          exact Bool.noConfusion hf
        subst hk; rfl
    | false =>
      simp only [Bool.false_eq_true, if_false]
      rw [ih k]
      constructor
      · rintro ⟨h1, h2, h3⟩
        refine ⟨by omega, h2, ?_⟩
        intro j hj1 hj2
        rcases Nat.eq_or_lt_of_le (Nat.le_of_lt_succ hj2) with e | e
        · exact e ▸ hp
        · exact h3 j hj1 e
      · rintro ⟨h1, h2, h3⟩
        have hne : k ≠ n := by
          intro e
          rw [e] at h2
          rw [hp] at h2
          exact Bool.noConfusion h2
        exact ⟨by omega, h2, fun j hj1 hj2 => h3 j hj1 (by omega)⟩

theorem find_last_eq_none (p : Nat → Bool) :
    ∀ n, (find_last p n = none ↔ ∀ j, j < n → p j = false) := by
  intro n
  induction n with
  | zero =>
    constructor
    · intro _ j hj; exact absurd hj (by omega)
    · intro _; rfl
  | succ n ih =>
    simp only [find_last]
    cases hp : p n with
    | true =>
      simp only [if_true]
      constructor
      · intro h; exact Option.noConfusion h
      · intro hall
        have hf := hall n (by omega)
        rw [hp] at hf
        exact Bool.noConfusion hf
    | false =>
      simp only [Bool.false_eq_true, if_false]
      rw [ih]
      constructor
      · intro h j hj
        rcases Nat.eq_or_lt_of_le (Nat.le_of_lt_succ hj) with e | e
        · exact e ▸ hp
        · exact h j e
      · intro h j hj
        exact h j (by omega)

theorem isPrefixOf_length_le (needle l : List Nat)
    (h : needle.isPrefixOf l = true) : needle.length ≤ l.length :=
  (List.isPrefixOf_iff_prefix.mp h).length_le

theorem isPrefixOf_drop_of_ge (needle buf : List Nat) (hn : 0 < needle.length)
    (j : Nat) (hj : buf.length ≤ j) : needle.isPrefixOf (buf.drop j) = false := by
  rw [List.drop_eq_nil_of_le hj]
  cases needle with
  | nil => exact absurd hn (by simp)
  | cons a t => rfl

theorem pyFind_eq_some (buf needle : List Nat) (hn : 0 < needle.length)
    (start stop k : Nat) :
    pyFind buf needle start stop = some k ↔
      start ≤ k ∧ k + needle.length ≤ min stop buf.length ∧
      needle.isPrefixOf (buf.drop k) = true ∧
      ∀ j, start ≤ j → j < k →
        ¬(j + needle.length ≤ min stop buf.length ∧
          needle.isPrefixOf (buf.drop j) = true) := by
  unfold pyFind
  rw [find_first_eq_some]
  constructor
  · rintro ⟨h1, h2, h3, h4⟩
    rw [Bool.and_eq_true, decide_eq_true_iff] at h3
    refine ⟨h1, h3.1, h3.2, ?_⟩
    rintro j hj1 hj2 ⟨hj3, hj4⟩
    have hf := h4 j hj1 hj2
    rw [decide_eq_true hj3, hj4] at hf
    exact Bool.noConfusion hf
  · rintro ⟨h1, h2, h3, h4⟩
    refine ⟨h1, by omega, ?_, ?_⟩
    · rw [Bool.and_eq_true]
      exact ⟨decide_eq_true h2, h3⟩
    · intro j hj1 hj2
      cases hpre : needle.isPrefixOf (buf.drop j) with
      | false => simp [hpre]
      | true =>
        have hc : ¬(j + needle.length ≤ min stop buf.length) :=
          fun hc => h4 j hj1 hj2 ⟨hc, hpre⟩
        simp [hpre, hc]

theorem pyFind_eq_none (buf needle : List Nat) (hn : 0 < needle.length)
    (start stop : Nat) :
    pyFind buf needle start stop = none ↔
      ∀ j, start ≤ j → j + needle.length ≤ min stop buf.length →
        needle.isPrefixOf (buf.drop j) = false := by
  unfold pyFind
  rw [find_first_eq_none]
  constructor
  · intro h j hj1 hj2
    have hf := h j hj1 (by omega)
    cases hpre : needle.isPrefixOf (buf.drop j) with
    | false => rfl
    | true =>
      rw [decide_eq_true hj2, hpre] at hf
      exact Bool.noConfusion hf
  · intro h j hj1 hj2
    cases hpre : needle.isPrefixOf (buf.drop j) with
    | false => simp [hpre]
    | true =>
      by_cases hc : j + needle.length ≤ min stop buf.length
      · rw [h j hj1 hc] at hpre
        exact Bool.noConfusion hpre
      · simp [hpre, hc]

theorem pyFind_le_start (buf needle : List Nat) (start stop k : Nat)
    (h : pyFind buf needle start stop = some k) : start ≤ k := by
  unfold pyFind at h
  exact ((find_first_eq_some _ _ _ _).mp h).1

theorem pyRFind_eq_some (buf needle : List Nat) (hn : 0 < needle.length) (k : Nat) :
    pyRFind buf needle = some k ↔
      needle.isPrefixOf (buf.drop k) = true ∧
      ∀ j, k < j → needle.isPrefixOf (buf.drop j) = false := by
  unfold pyRFind
  rw [find_last_eq_some]
  constructor
  · rintro ⟨h1, h2, h3⟩
    refine ⟨h2, ?_⟩
    intro j hj
    by_cases hjl : j < buf.length
    · exact h3 j hj hjl
    · exact isPrefixOf_drop_of_ge _ _ hn j (by omega)
  · rintro ⟨h1, h2⟩
    have hk : k < buf.length := by
      have hl := isPrefixOf_length_le _ _ h1
      rw [List.length_drop] at hl
      omega
    exact ⟨hk, h1, fun j hj _ => h2 j hj⟩

theorem pyRFind_eq_none (buf needle : List Nat) (hn : 0 < needle.length) :
    pyRFind buf needle = none ↔ ∀ j, needle.isPrefixOf (buf.drop j) = false := by
  unfold pyRFind
  rw [find_last_eq_none]
  constructor
  · intro h j
    by_cases hjl : j < buf.length
    · exact h j hjl
    · exact isPrefixOf_drop_of_ge _ _ hn j (by omega)
  · intro h j _
    exact h j

theorem isPrefixOf_take (needle : List Nat) :
    ∀ (l : List Nat) (k : Nat),
      needle.isPrefixOf (l.take k) =
        (needle.isPrefixOf l && decide (needle.length ≤ k)) := by
  induction needle with
  | nil => intro l k; simp [List.isPrefixOf]
  | cons a t ih =>
    intro l k
    cases l with
    | nil => simp [List.isPrefixOf]
    | cons b l' =>
      cases k with
      | zero => simp [List.isPrefixOf]
      | succ k' =>
        rw [List.take_succ_cons]
        show (a == b && t.isPrefixOf (l'.take k')) = _
        rw [ih l' k']
        have hdec : decide ((a :: t).length ≤ k' + 1) = decide (t.length ≤ k') := by
          rw [decide_eq_decide]
          simp
        rw [hdec]
        show _ = ((a == b && t.isPrefixOf l') && decide (t.length ≤ k'))
        rw [Bool.and_assoc]

theorem pySlice_drop (buf : List Nat) (a b i : Nat) :
    (pySlice buf a b).drop i = (buf.drop (a + i)).take (b - (a + i)) := by
  unfold pySlice
  rw [List.drop_drop, List.drop_take]

theorem length_pySlice (buf : List Nat) (a b : Nat) :
    (pySlice buf a b).length = min b buf.length - a := by
  simp [pySlice]

theorem isPrefixOf_pySlice (needle buf : List Nat) (hn : 0 < needle.length)
    (a b i : Nat) :
    needle.isPrefixOf ((pySlice buf a b).drop i) =
      (needle.isPrefixOf (buf.drop (a + i)) && decide (a + i + needle.length ≤ b)) := by
  rw [pySlice_drop, isPrefixOf_take]
  congr 1
  rw [decide_eq_decide]
  omega

theorem pyRFind_pySlice_eq_some (buf needle : List Nat) (hn : 0 < needle.length)
    (a b k : Nat) :
    pyRFind (pySlice buf a b) needle = some k ↔
      needle.isPrefixOf (buf.drop (a + k)) = true ∧ a + k + needle.length ≤ b ∧
      ∀ q, a ≤ q → q + needle.length ≤ b →
        needle.isPrefixOf (buf.drop q) = true → q ≤ a + k := by
  rw [pyRFind_eq_some _ _ hn]
  constructor
  · rintro ⟨h1, h2⟩
    rw [isPrefixOf_pySlice _ _ hn, Bool.and_eq_true, decide_eq_true_iff] at h1
    refine ⟨h1.1, h1.2, ?_⟩
    intro q hq1 hq2 hq3
    by_contra hgt
    have hj : k < q - a := by omega
    have hf := h2 (q - a) hj
    rw [isPrefixOf_pySlice _ _ hn] at hf
    have he : a + (q - a) = q := by omega
    rw [he, hq3, decide_eq_true hq2] at hf
    exact Bool.noConfusion hf
  · rintro ⟨h1, h2, h3⟩
    constructor
    · rw [isPrefixOf_pySlice _ _ hn, h1, decide_eq_true h2]
      rfl
    · intro j hj
      rw [isPrefixOf_pySlice _ _ hn]
      cases hpre : needle.isPrefixOf (buf.drop (a + j)) with
      | false => simp
      | true =>
        have hc : ¬(a + j + needle.length ≤ b) := by
          intro hc
          have := h3 (a + j) (by omega) hc hpre
          omega
        simp [hc]

theorem pyRFind_pySlice_eq_none (buf needle : List Nat) (hn : 0 < needle.length)
    (a b : Nat) :
    pyRFind (pySlice buf a b) needle = none ↔
      ∀ q, a ≤ q → q + needle.length ≤ b →
        needle.isPrefixOf (buf.drop q) = false := by
  rw [pyRFind_eq_none _ _ hn]
  constructor
  · intro h q hq1 hq2
    have hf := h (q - a)
    rw [isPrefixOf_pySlice _ _ hn] at hf
    have he : a + (q - a) = q := by omega
    rw [he, decide_eq_true hq2] at hf
    cases hpre : needle.isPrefixOf (buf.drop q) with
    | false => rfl
    | true =>
      rw [hpre] at hf
      exact Bool.noConfusion hf
  · intro h j
    rw [isPrefixOf_pySlice _ _ hn]
    cases hpre : needle.isPrefixOf (buf.drop (a + j)) with
    | false => simp
    | true =>
      by_cases hc : a + j + needle.length ≤ b
      · rw [h (a + j) (by omega) hc] at hpre
        exact Bool.noConfusion hpre
      · simp [hc]

/-! JPEG: the fragmented bridge coincides with the primary footer locator. -/

theorem pair_isPrefixOf_struct (x y : Nat) (l : List Nat)
    (h : [x, y].isPrefixOf l = true) : ∃ t, l = x :: y :: t := by
  cases l with
  | nil => exact Bool.noConfusion h
  | cons a l' =>
    cases l' with
    | nil => simp [List.isPrefixOf] at h
    | cons b t =>
      simp [List.isPrefixOf] at h
      exact ⟨t, by rw [h.1, h.2]⟩

theorem soi_no_eoi_at (buf : List Nat) (h_off : Nat)
    (hsoi : JPEGPlugin.SOI.isPrefixOf (buf.drop h_off) = true) :
    JPEGPlugin.EOI.isPrefixOf (buf.drop h_off) = false ∧
      JPEGPlugin.EOI.isPrefixOf (buf.drop (h_off + 1)) = false := by
  obtain ⟨t, ht⟩ := pair_isPrefixOf_struct 0xff 0xd8 _ hsoi
  have hd1 : buf.drop (h_off + 1) = 0xd8 :: t := by
    rw [← List.drop_drop, ht]
    rfl
  constructor
  · rw [ht]; simp [JPEGPlugin.EOI, List.isPrefixOf]
  · rw [hd1]; simp [JPEGPlugin.EOI, List.isPrefixOf]

/-- Claim C7: wherever the SOI signature `FF D8` occurs, the JPEG fragmented
bridge returns exactly what the primary footer locator returns on the same
span (the bridge is functionally identical to the locator). -/
theorem C7_bridge_eq_footer (buf : List Nat) (h_off span chunk_size : Nat)
    (hsoi : JPEGPlugin.SOI.isPrefixOf (buf.drop h_off) = true) :
    JPEGPlugin.fragmented_try_bridge buf h_off span chunk_size =
      JPEGPlugin.find_footer buf h_off span := by
  have hn : 0 < JPEGPlugin.EOI.length := by decide
  have hEl : JPEGPlugin.EOI.length = 2 := rfl
  obtain ⟨hat0, hat1⟩ := soi_no_eoi_at buf h_off hsoi
  have hno01 : ∀ q, h_off ≤ q → q < h_off + 2 →
      JPEGPlugin.EOI.isPrefixOf (buf.drop q) = false := by
    intro q h1 h2
    have hq : q = h_off ∨ q = h_off + 1 := by omega
    rcases hq with rfl | rfl
    · exact hat0
    · exact hat1
  simp only [JPEGPlugin.fragmented_try_bridge, JPEGPlugin.find_footer]
  cases hfo : pyFind buf JPEGPlugin.EOI (h_off + 2) (min buf.length (h_off + span)) with
  | none =>
    have hnone : pyFind (pySlice buf h_off (min buf.length (h_off + span))) JPEGPlugin.EOI 0
        (pySlice buf h_off (min buf.length (h_off + span))).length = none := by
      rw [pyFind_eq_none _ _ hn]
      intro j _ hj2
      rw [length_pySlice, hEl] at hj2
      rw [isPrefixOf_pySlice _ _ hn]
      cases hpre : JPEGPlugin.EOI.isPrefixOf (buf.drop (h_off + j)) with
      | false => simp
      | true =>
        exfalso
        rcases Nat.lt_or_ge (h_off + j) (h_off + 2) with hq | hq
        · rw [hno01 (h_off + j) (by omega) hq] at hpre
          exact Bool.noConfusion hpre
        · have hf := (pyFind_eq_none _ _ hn _ _).mp hfo (h_off + j) hq
            (by rw [hEl]; omega)
          rw [hf] at hpre
          exact Bool.noConfusion hpre
    rw [hnone]
  | some k =>
    obtain ⟨hk1, hk2, hk3, hk4⟩ := (pyFind_eq_some _ _ hn _ _ _).mp hfo
    rw [hEl] at hk2
    have hsome : pyFind (pySlice buf h_off (min buf.length (h_off + span))) JPEGPlugin.EOI 0
        (pySlice buf h_off (min buf.length (h_off + span))).length = some (k - h_off) := by
      rw [pyFind_eq_some _ _ hn]
      refine ⟨Nat.zero_le _, ?_, ?_, ?_⟩
      · rw [length_pySlice, hEl]
        omega
      · rw [isPrefixOf_pySlice _ _ hn]
        have he : h_off + (k - h_off) = k := by omega
        rw [he, hk3, hEl]
        have hdec : k + 2 ≤ min buf.length (h_off + span) := by omega
        rw [decide_eq_true hdec]
        rfl
      · rintro j _ hjlt ⟨hj3, hj4⟩
        rw [isPrefixOf_pySlice _ _ hn, Bool.and_eq_true, decide_eq_true_iff, hEl] at hj4
        obtain ⟨hpre, hbound⟩ := hj4
        rcases Nat.lt_or_ge (h_off + j) (h_off + 2) with hq | hq
        · rw [hno01 (h_off + j) (by omega) hq] at hpre
          exact Bool.noConfusion hpre
        · exact hk4 (h_off + j) hq (by omega) ⟨by rw [hEl]; omega, hpre⟩
    simp only [hsome]
    have he : h_off + (k - h_off) + 2 = k + 2 := by omega
    rw [he]

/-- Claim C5: `PDFPlugin.find_footer` returns the offset of the last full
occurrence of `%%EOF` inside the window `[h_off, h_off + max_scan)` plus 5,
and `none` when the window holds no such occurrence; earlier `%%EOF` markers
are never chosen. -/
theorem C5_pdf_last_eof (buf : List Nat) (h_off max_scan : Nat) :
    (∀ e, PDFPlugin.find_footer buf h_off max_scan = some e ↔
      ∃ p, h_off ≤ p ∧ p + 5 ≤ min buf.length (h_off + max_scan) ∧
        PDFPlugin.EOF.isPrefixOf (buf.drop p) = true ∧
        (∀ q, h_off ≤ q → q + 5 ≤ min buf.length (h_off + max_scan) →
          PDFPlugin.EOF.isPrefixOf (buf.drop q) = true → q ≤ p) ∧
        e = p + 5) ∧
    (PDFPlugin.find_footer buf h_off max_scan = none ↔
      ∀ q, h_off ≤ q → q + 5 ≤ min buf.length (h_off + max_scan) →
        PDFPlugin.EOF.isPrefixOf (buf.drop q) = false) := by
  have hn : 0 < PDFPlugin.EOF.length := by decide
  simp only [PDFPlugin.find_footer]
  cases hrf : pyRFind (pySlice buf h_off (min buf.length (h_off + max_scan)))
      PDFPlugin.EOF with
  | none =>
    have hc := (pyRFind_pySlice_eq_none buf PDFPlugin.EOF hn h_off
      (min buf.length (h_off + max_scan))).mp hrf
    constructor
    · intro e
      constructor
      · intro h; exact Option.noConfusion h
      · rintro ⟨p, hp1, hp2, hp3, -, -⟩
        rw [hc p hp1 hp2] at hp3
        exact Bool.noConfusion hp3
    · exact ⟨fun _ => fun q hq1 hq2 => hc q hq1 hq2, fun _ => rfl⟩
  | some last =>
    obtain ⟨h1, h2, h3⟩ := (pyRFind_pySlice_eq_some buf PDFPlugin.EOF hn h_off
      (min buf.length (h_off + max_scan)) last).mp hrf
    constructor
    · intro e
      constructor
      · intro h
        have he : h_off + last + PDFPlugin.EOF.length = e := Option.some.inj h
        have h5 : PDFPlugin.EOF.length = 5 := rfl
        rw [h5] at he
        refine ⟨h_off + last, by omega, by exact h2, h1, fun q a b c => h3 q a b c, ?_⟩
        omega
      · rintro ⟨p, hp1, hp2, hp3, hp4, rfl⟩
        have hle1 : p ≤ h_off + last := h3 p hp1 hp2 hp3
        have hle2 : h_off + last ≤ p := hp4 (h_off + last) (by omega) (by exact h2) h1
        show some (h_off + last + PDFPlugin.EOF.length) = some (p + 5)
        have he : h_off + last + PDFPlugin.EOF.length = p + 5 := by
          have h5 : PDFPlugin.EOF.length = 5 := rfl
          omega
        rw [he]
    · constructor
      · intro h; exact Option.noConfusion h
      · intro hall
        rw [hall (h_off + last) (by omega) (by exact h2)] at h1
        exact Bool.noConfusion h1

/-! ZIP: specification of the EOCD tail parse. -/

theorem pySlice_getD (buf : List Nat) (a b i d : Nat) (h1 : a + i < b) :
    (pySlice buf a b).getD i d = buf.getD (a + i) d := by
  unfold pySlice
  rw [List.getD_eq_getElem?_getD, List.getD_eq_getElem?_getD, List.getElem?_drop,
    List.getElem?_take]
  rw [if_pos h1]

theorem parse_eocd_end_spec (buf : List Nat) (e b : Nat) (hb : b ≤ buf.length) :
    ZIPPlugin.parse_eocd_end buf e b =
      if e + 22 ≤ b then
        min (e + 22 + (buf.getD (e + 20) 0 + 256 * buf.getD (e + 21) 0)) buf.length
      else e + 22 := by
  simp only [ZIPPlugin.parse_eocd_end]
  by_cases hc : b < e + 22
  · rw [if_pos hc, if_neg (by omega)]
  · have he22 : e + 22 ≤ b := by omega
    rw [if_neg hc, if_pos he22]
    have hl : (pySlice buf e (e + 22)).length = 22 := by
      rw [length_pySlice]
      omega
    rw [hl]
    simp only [beq_self_eq_true, if_true]
    have h20 : (pySlice buf e (e + 22)).getD 20 0 = buf.getD (e + 20) 0 :=
      pySlice_getD buf e (e + 22) 20 0 (by omega)
    have h21 : (pySlice buf e (e + 22)).getD 21 0 = buf.getD (e + 21) 0 :=
      pySlice_getD buf e (e + 22) 21 0 (by omega)
    rw [h20, h21]

/-- Claim C4: when the search window holds a last EOCD (at absolute offset
`p`) and no ZIP64 signatures, `ZIPPlugin.find_footer` parses the fixed
22-byte little-endian EOCD structure and returns
`p + 22 + comment_length` clamped to the view length, falling back to
`p + 22` when the 22-byte structure does not fit in the window. -/
theorem C4_eocd_end (buf : List Nat) (h_off max_scan p : Nat)
    (hno64loc : ∀ q, q < buf.length → h_off ≤ q →
      q + 4 ≤ min buf.length (h_off + max_scan) →
      ZIPPlugin.EOCD64_LOC.isPrefixOf (buf.drop q) = false)
    (hno64 : ∀ q, q < buf.length → h_off ≤ q →
      q + 4 ≤ min buf.length (h_off + max_scan) →
      ZIPPlugin.EOCD64.isPrefixOf (buf.drop q) = false)
    (hp1 : h_off ≤ p) (hp2 : p + 4 ≤ min buf.length (h_off + max_scan))
    (hp3 : ZIPPlugin.EOCD.isPrefixOf (buf.drop p) = true)
    (hlast : ∀ q, q < buf.length → h_off ≤ q →
      q + 4 ≤ min buf.length (h_off + max_scan) →
      ZIPPlugin.EOCD.isPrefixOf (buf.drop q) = true → q ≤ p) :
    ZIPPlugin.find_footer buf h_off max_scan =
      some (if p + 22 ≤ min buf.length (h_off + max_scan) then
        min (p + 22 + (buf.getD (p + 20) 0 + 256 * buf.getD (p + 21) 0)) buf.length
      else p + 22) := by
  have hn4loc : 0 < ZIPPlugin.EOCD64_LOC.length := by decide
  have hn4rec : 0 < ZIPPlugin.EOCD64.length := by decide
  have hne : 0 < ZIPPlugin.EOCD.length := by decide
  have hloc_none : pyRFind (pySlice buf h_off (min buf.length (h_off + max_scan)))
      ZIPPlugin.EOCD64_LOC = none := by
    rw [pyRFind_pySlice_eq_none _ _ hn4loc]
    intro q hq1 hq2
    by_cases hql : q < buf.length
    · exact hno64loc q hql hq1 hq2
    · exact isPrefixOf_drop_of_ge _ _ hn4loc q (by omega)
  have hrec_none : pyRFind (pySlice buf h_off (min buf.length (h_off + max_scan)))
      ZIPPlugin.EOCD64 = none := by
    rw [pyRFind_pySlice_eq_none _ _ hn4rec]
    intro q hq1 hq2
    by_cases hql : q < buf.length
    · exact hno64 q hql hq1 hq2
    · exact isPrefixOf_drop_of_ge _ _ hn4rec q (by omega)
  have heocd_some : pyRFind (pySlice buf h_off (min buf.length (h_off + max_scan)))
      ZIPPlugin.EOCD = some (p - h_off) := by
    rw [pyRFind_pySlice_eq_some _ _ hne]
    have he : h_off + (p - h_off) = p := by omega
    rw [he]
    refine ⟨hp3, hp2, ?_⟩
    intro q hq1 hq2 hq3
    by_cases hql : q < buf.length
    · exact hlast q hql hq1 hq2 hq3
    · rw [isPrefixOf_drop_of_ge _ _ hne q (by omega)] at hq3
      exact Bool.noConfusion hq3
  simp only [ZIPPlugin.find_footer, hloc_none, hrec_none, heocd_some]
  show some (ZIPPlugin.parse_eocd_end buf (h_off + (p - h_off))
    (min buf.length (h_off + max_scan))) = _
  have he : h_off + (p - h_off) = p := by omega
  rw [he, parse_eocd_end_spec _ _ _ (Nat.min_le_left _ _)]

/-! Invariants of the scanning engine. -/

theorem mem_scan_memory_loop (opts : CarveOptions) (f : Fmt) (pname : String)
    (data : List Nat) :
    ∀ fuel off r, r ∈ Carver.scan_memory_for_embedded_loop opts f pname data fuel off →
      r.fmt = f ∧ r.embedded_parent = some pname ∧ r.notes = some "embedded" ∧
      0 < r.size ∧ r.size ≤ opts.max_size ∧ r.size = r.end_ - r.start ∧
      r.validated = FormatPlugin.validate r.fmt r.data := by
  intro fuel
  induction fuel with
  | zero => intro off r hr; simp [Carver.scan_memory_for_embedded_loop] at hr
  | succ n ih =>
    intro off r hr
    simp only [Carver.scan_memory_for_embedded_loop] at hr
    cases hfind : pyFind data ((FormatPlugin.headers f).headD []) off data.length with
    | none => simp only [hfind] at hr; simp at hr
    | some h =>
      simp only [hfind] at hr
      cases hfoot : FormatPlugin.find_footer f data h
          ((opts.scan_windows f).getD opts.max_size) with
      | none => simp only [hfoot] at hr; exact ih _ r hr
      | some e =>
        simp only [hfoot] at hr
        by_cases hguard : h < e ∧ e - h ≤ opts.max_size
        · rw [if_pos hguard] at hr
          rcases List.mem_cons.mp hr with rfl | hr'
          · refine ⟨rfl, rfl, rfl, ?_, hguard.2, rfl, rfl⟩
            show 0 < e - h
            omega
          · exact ih _ r hr'
        · rw [if_neg hguard] at hr
          exact ih _ r hr

theorem mem_scan_memory_for_embedded (opts : CarveOptions) (pf : Fmt) (data : List Nat)
    (depth : Nat) (pname : String) (r : CarveRecord)
    (hr : r ∈ Carver.scan_memory_for_embedded opts pf data depth pname) :
    r.fmt ≠ pf ∧ r.embedded_parent = some pname ∧ r.notes = some "embedded" ∧
      0 < r.size ∧ r.size ≤ opts.max_size ∧ r.size = r.end_ - r.start ∧
      r.validated = FormatPlugin.validate r.fmt r.data := by
  unfold Carver.scan_memory_for_embedded at hr
  rw [List.mem_flatten] at hr
  obtain ⟨l, hl, hrl⟩ := hr
  rw [List.mem_map] at hl
  obtain ⟨g, hg, rfl⟩ := hl
  rw [List.mem_filter] at hg
  have hprops := mem_scan_memory_loop opts g pname data _ _ r hrl
  refine ⟨?_, hprops.2.1, hprops.2.2.1, hprops.2.2.2.1, hprops.2.2.2.2.1,
    hprops.2.2.2.2.2.1, hprops.2.2.2.2.2.2⟩
  rw [hprops.1]
  exact of_decide_eq_true hg.2

theorem mem_scan_loop (opts : CarveOptions) (f : Fmt) (buf : List Nat) (depth : Nat)
    (src : Option String) :
    ∀ fuel off r, r ∈ Carver.scan_loop opts f buf depth src fuel off →
      0 < r.size ∧ r.size ≤ opts.max_size ∧ r.size = r.end_ - r.start ∧
      r.validated = FormatPlugin.validate r.fmt r.data := by
  intro fuel
  induction fuel with
  | zero => intro off r hr; simp [Carver.scan_loop] at hr
  | succ n ih =>
    intro off r hr
    simp only [Carver.scan_loop] at hr
    by_cases hoff : off < buf.length
    · rw [if_pos hoff] at hr
      cases hfind : pyFind buf ((FormatPlugin.headers f).headD []) off buf.length with
      | none => simp only [hfind] at hr; simp at hr
      | some h =>
        simp only [hfind] at hr
        cases hstep : Carver.scan_step_end opts f buf h
            ((opts.scan_windows f).getD opts.max_size) with
        | mk oe uf =>
          cases oe with
          | none => simp only [hstep] at hr; exact ih _ r hr
          | some e =>
            simp only [hstep] at hr
            by_cases hguard : h < e ∧ e - h ≤ opts.max_size
            · rw [if_pos hguard] at hr
              rcases List.mem_cons.mp hr with rfl | hr'
              · refine ⟨?_, hguard.2, rfl, rfl⟩
                show 0 < e - h
                omega
              · rw [List.mem_append] at hr'
                rcases hr' with hemb | hrest
                · by_cases hd : depth < opts.embedded_depth
                  · rw [if_pos hd] at hemb
                    have hp := mem_scan_memory_for_embedded opts f _ _ _ r hemb
                    exact ⟨hp.2.2.2.1, hp.2.2.2.2.1, hp.2.2.2.2.2.1, hp.2.2.2.2.2.2⟩
                  · rw [if_neg hd] at hemb
                    simp at hemb
                · exact ih _ r hrest
            · rw [if_neg hguard] at hr
              exact ih _ r hr
    · rw [if_neg hoff] at hr
      simp at hr

theorem mem_scan (opts : CarveOptions) (buf : List Nat) (depth : Nat)
    (src : Option String) (r : CarveRecord) (hr : r ∈ Carver.scan opts buf depth src) :
    0 < r.size ∧ r.size ≤ opts.max_size ∧ r.size = r.end_ - r.start ∧
      r.validated = FormatPlugin.validate r.fmt r.data := by
  unfold Carver.scan at hr
  rw [List.mem_flatten] at hr
  obtain ⟨l, hl, hrl⟩ := hr
  rw [List.mem_map] at hl
  obtain ⟨g, _, rfl⟩ := hl
  exact mem_scan_loop opts g buf depth src _ _ r hrl

theorem filter_topLevel_scan_memory (opts : CarveOptions) (pf : Fmt) (data : List Nat)
    (depth : Nat) (pname : String) :
    (Carver.scan_memory_for_embedded opts pf data depth pname).filter
      (fun r => r.embedded_parent.isNone) = [] := by
  rw [List.filter_eq_nil_iff]
  intro r hr
  have h := (mem_scan_memory_for_embedded opts pf data depth pname r hr).2.1
  simp [h]

theorem scan_loop_top_chain (opts : CarveOptions) (f : Fmt) (buf : List Nat) (depth : Nat) :
    ∀ fuel off,
      (∀ r ∈ (Carver.scan_loop opts f buf depth none fuel off).filter
          (fun r => r.embedded_parent.isNone), off ≤ r.start) ∧
      ((Carver.scan_loop opts f buf depth none fuel off).filter
          (fun r => r.embedded_parent.isNone)).Pairwise (fun a b => a.end_ ≤ b.start) := by
  intro fuel
  induction fuel with
  | zero =>
    intro off
    constructor
    · intro r hr; simp [Carver.scan_loop] at hr
    · simp [Carver.scan_loop]
  | succ n ih =>
    intro off
    suffices hgen : ∀ L : List CarveRecord,
        L = Carver.scan_loop opts f buf depth none (n + 1) off →
        (∀ r ∈ L.filter (fun r => r.embedded_parent.isNone), off ≤ r.start) ∧
        (L.filter (fun r => r.embedded_parent.isNone)).Pairwise
          (fun a b => a.end_ ≤ b.start) by
      exact hgen _ rfl
    intro L hL
    simp only [Carver.scan_loop] at hL
    by_cases hoff : off < buf.length
    · rw [if_pos hoff] at hL
      cases hfind : pyFind buf ((FormatPlugin.headers f).headD []) off buf.length with
      | none =>
        simp only [hfind] at hL
        subst hL
        constructor
        · intro r hr; simp at hr
        · simp
      | some h =>
        have hoffh : off ≤ h := pyFind_le_start _ _ _ _ _ hfind
        simp only [hfind] at hL
        cases hstep : Carver.scan_step_end opts f buf h
            ((opts.scan_windows f).getD opts.max_size) with
        | mk oe uf =>
          cases oe with
          | none =>
            simp only [hstep] at hL
            subst hL
            constructor
            · intro r hr
              have hs := (ih (h + 1)).1 r hr
              omega
            · exact (ih (h + 1)).2
          | some e =>
            simp only [hstep] at hL
            by_cases hguard : h < e ∧ e - h ≤ opts.max_size
            · rw [if_pos hguard] at hL
              subst hL
              have hemb : ((if depth < opts.embedded_depth then
                  Carver.scan_memory_for_embedded opts f (pySlice buf h e) (depth + 1)
                    (FormatPlugin.candidate_name f h)
                else []).filter (fun r => r.embedded_parent.isNone)) = [] := by
                by_cases hd : depth < opts.embedded_depth
                · rw [if_pos hd]
                  exact filter_topLevel_scan_memory opts f _ _ _
                · rw [if_neg hd]; rfl
              rw [List.filter_cons, List.filter_append, hemb]
              simp only [Option.isNone_none, if_true, List.nil_append]
              constructor
              · intro r hr
                rcases List.mem_cons.mp hr with rfl | hr'
                · show off ≤ h
                  omega
                · have hs := (ih e).1 r hr'
                  omega
              · rw [List.pairwise_cons]
                constructor
                · intro b hb
                  show e ≤ b.start
                  exact (ih e).1 b hb
                · exact (ih e).2
            · rw [if_neg hguard] at hL
              subst hL
              constructor
              · intro r hr
                have hs := (ih (h + 1)).1 r hr
                omega
              · exact (ih (h + 1)).2
    · rw [if_neg hoff] at hL
      subst hL
      constructor
      · intro r hr; simp at hr
      · simp

theorem scan_memory_loop_congr (o1 o2 : CarveOptions)
    (hms : o1.max_size = o2.max_size) (hsw : o1.scan_windows = o2.scan_windows)
    (hod : o1.out_dir = o2.out_dir) (f : Fmt) (pname : String) (data : List Nat) :
    ∀ fuel off,
      Carver.scan_memory_for_embedded_loop o1 f pname data fuel off =
        Carver.scan_memory_for_embedded_loop o2 f pname data fuel off := by
  have hemit : Carver.emit_file o1 = Carver.emit_file o2 := by
    funext g nm
    unfold Carver.emit_file
    rw [hod]
  intro fuel
  induction fuel with
  | zero => intro off; rfl
  | succ n ih =>
    intro off
    simp only [Carver.scan_memory_for_embedded_loop, hms, hsw, hemit, ih]

theorem scan_memory_fragmented_irrel (opts : CarveOptions) (b : Bool) (pf : Fmt)
    (data : List Nat) (depth : Nat) (pname : String) :
    Carver.scan_memory_for_embedded { opts with fragmented := b } pf data depth pname =
      Carver.scan_memory_for_embedded opts pf data depth pname := by
  unfold Carver.scan_memory_for_embedded
  congr 1
  apply List.map_congr_left
  intro g _
  exact scan_memory_loop_congr { opts with fragmented := b } opts rfl rfl rfl
    g pname data (data.length + 1) 0

/-- Claim C1 (code-bug evaluation): on `buf41` — ZIP64 locator and record
present, last EOCD at offset 12 after the ZIP64 record signature, EOCD
comment-length field 7 — `ZIPPlugin.find_footer` returns `12 + 22 = 34`: it
drops the 7 comment bytes although the spec (and the source's own inline
comment) call for `eocd_offset + 22 + comment_length = 41`. -/
theorem C1_comment_truncated :
    ZIPPlugin.find_footer buf41 0 1000 = some (12 + 22) ∧
    buf41.getD (12 + 20) 0 + 256 * buf41.getD (12 + 21) 0 = 7 ∧
    buf41.length = 12 + 22 + 7 := by
  refine ⟨by decide, by decide, by decide⟩

/-- Claim C2 (counterexample): with `embedded_depth = 2` on `image42` (a JPEG
inside a PDF inside a ZIP) the run produces exactly six records; the embedded
scan of the depth-1 PDF blob would carve the JPEG inside it (its footer is
found and an explicit re-scan yields one record), yet no record of the run has
that PDF artifact as `embedded_parent` — the scan never re-enters carved
embedded blobs. -/
theorem C2_counterexample :
    opts2.embedded_depth = 2 ∧
    Carver.scan opts2 image42 0 none = [rec2a, rec2b, rec2c, rec2d, rec2e, rec2f] ∧
    JPEGPlugin.find_footer rec2b.data 5 1000 = some 11 ∧
    (Carver.scan_memory_for_embedded opts2 Fmt.pdf rec2b.data 2
      "zip_000000000000__pdf_00000004").length = 1 ∧
    (Carver.scan opts2 image42 0 none).all (fun r =>
      r.embedded_parent == none || r.embedded_parent == some "zip_000000000000" ||
      r.embedded_parent == some "pdf_000000000004" ||
      r.embedded_parent == some "jpeg_000000000009") = true := by
  refine ⟨rfl, by decide, by decide, by decide, by decide⟩

/-- Claim C2 (amended): the embedded scan never recurses into carved embedded
blobs — every record it produces carries the scan's own parent as
`embedded_parent` and never the parent's format, and its output does not
depend on the `depth` counter at all. -/
theorem C2_amended (opts : CarveOptions) (pf : Fmt) (data : List Nat)
    (depth depth' : Nat) (pname : String) :
    ((Carver.scan_memory_for_embedded opts pf data depth pname).all (fun r =>
      decide (r.embedded_parent = some pname) && decide (r.fmt ≠ pf)) = true) ∧
    Carver.scan_memory_for_embedded opts pf data depth pname =
      Carver.scan_memory_for_embedded opts pf data depth' pname := by
  constructor
  · rw [List.all_eq_true]
    intro r hr
    have h := mem_scan_memory_for_embedded opts pf data depth pname r hr
    simp [h.1, h.2.1]
  · rfl

/-- Claim C3: on `buf8` the EOCD lies within 22 bytes of the window end, so
`ZIPPlugin.find_footer` returns 26, beyond the 8-byte view; the scanner still
emits one record whose `size` field (26) exceeds the 8 bytes actually sliced,
validated and written. -/
theorem C3_oversized_record :
    ZIPPlugin.find_footer buf8 0 100 = some 26 ∧ buf8.length = 8 ∧
    Carver.scan opts3 buf8 0 none = [rec3] ∧
    rec3.size = 26 ∧ rec3.data.length = 8 ∧ rec3.data.length < rec3.size ∧
    rec3.validated = FormatPlugin.validate rec3.fmt rec3.data := by
  refine ⟨by decide, by decide, by decide, by decide, by decide, by decide, by decide⟩

/-- Witness for C4: the 33-byte ZIP `buf33` (EOCD at 4, comment length 7, no
ZIP64 signatures) carves to `4 + 22 + 7 = 33` — the full 29-byte EOCD tail. -/
theorem C4_eocd_end_witness : ZIPPlugin.find_footer buf33 0 100 = some 33 := by
  have h := C4_eocd_end buf33 0 100 4 (by decide) (by decide) (by decide) (by decide)
    (by decide) (by decide)
  rw [h]
  decide

/-- Claim C6 (counterexample): with `options.fragmented = true`, a ZIP header
inside a blob whose footer search fails but whose bridge succeeds (with an
in-range size) still yields no embedded record: the embedded scan never
invokes `fragmented_try_bridge`. -/
theorem C6_counterexample :
    opts6.fragmented = true ∧
    ZIPPlugin.find_footer blob8 0 100 = none ∧
    ZIPPlugin.fragmented_try_bridge blob8 0 100 opts6.chunk_size = some 8 ∧
    (0 < 8 - 0 ∧ 8 - 0 ≤ opts6.max_size) ∧
    Carver.scan_memory_for_embedded opts6 Fmt.pdf blob8 1 "p" = [] := by
  refine ⟨rfl, by decide, by decide, by decide, by decide⟩

/-- Claim C6 (amended): the embedded scan runs the top-level algorithm except
that it never consults `options.fragmented` — toggling the flag leaves its
output unchanged — and every record it emits is tagged `embedded` (never
`fragmented-bridge`). -/
theorem C6_amended (opts : CarveOptions) (pf : Fmt) (data : List Nat) (depth : Nat)
    (pname : String) (b : Bool) :
    Carver.scan_memory_for_embedded { opts with fragmented := b } pf data depth pname =
      Carver.scan_memory_for_embedded opts pf data depth pname ∧
    (Carver.scan_memory_for_embedded opts pf data depth pname).all
      (fun r => decide (r.notes = some "embedded")) = true := by
  refine ⟨scan_memory_fragmented_irrel opts b pf data depth pname, ?_⟩
  rw [List.all_eq_true]
  intro r hr
  have h := mem_scan_memory_for_embedded opts pf data depth pname r hr
  simp [h.2.2.1]

/-- Claim C8: `PDFPlugin.validate` holds exactly when the bytes start with
`%PDF-` and contain `%%EOF`; the `startxref` probe (including a failed integer
parse of the line after it) never changes the verdict. -/
theorem C8_pdf_validate (data : List Nat) :
    PDFPlugin.validate data =
      (PDFPlugin.header.isPrefixOf data && pyContains data PDFPlugin.EOF) := by
  cases hp : PDFPlugin.header.isPrefixOf data with
  | false => simp [PDFPlugin.validate, hp]
  | true =>
    cases hq : pyContains data PDFPlugin.EOF with
    | false => simp [PDFPlugin.validate, hp, hq]
    | true =>
      simp only [PDFPlugin.validate, hp, hq, Bool.not_true, Bool.false_eq_true, if_false,
        Bool.and_self]
      by_cases hsx : pyContains (data.drop (data.length - 2048)) PDFPlugin.startxref_sig
      · rw [if_pos hsx]
        cases PDFPlugin.startxref_parse (data.drop (data.length - 2048)) <;> rfl
      · rw [if_neg hsx]

/-- Claim C9: every record a run appends — top-level or embedded — has
`0 < size ≤ max_size`, `size = end − start`, and a `validated` flag equal to
the plugin's validator applied to exactly the bytes written to the sink. -/
theorem C9_record_invariants (opts : CarveOptions) (buf : List Nat) (depth : Nat)
    (src : Option String) :
    (Carver.scan opts buf depth src).all (fun r =>
      decide (0 < r.size) && decide (r.size ≤ opts.max_size) &&
      decide (r.size = r.end_ - r.start) &&
      decide (r.validated = FormatPlugin.validate r.fmt r.data)) = true := by
  rw [List.all_eq_true]
  intro r hr
  obtain ⟨h1, h2, h3, h4⟩ := mem_scan opts buf depth src r hr
  simp [h1, h2, h3, h4]
  omega

/-- Claim C10: for a single plugin the top-level records of one run are
emitted in strictly advancing order — each record ends at or before the next
one starts — hence their `[start, end)` ranges are pairwise non-overlapping
(the cursor advances to `end` after a successful carve). -/
theorem C10_disjoint_ranges (opts : CarveOptions) (f : Fmt) (buf : List Nat)
    (fuel : Nat) :
    ((Carver.scan_loop opts f buf 0 none fuel 0).filter
        (fun r => r.embedded_parent.isNone)).Pairwise
      (fun a b => a.end_ ≤ b.start) ∧
    ((Carver.scan_loop opts f buf 0 none fuel 0).filter
        (fun r => r.embedded_parent.isNone)).Pairwise
      (fun a b => a.end_ ≤ b.start ∨ b.end_ ≤ a.start) := by
  have h := (scan_loop_top_chain opts f buf 0 fuel 0).2
  exact ⟨h, h.imp (fun hx => Or.inl hx)⟩

/-- Witness for C7: on the four-byte JPEG `FF D8 FF D9` with the header at 0,
bridge and footer locator agree. -/
theorem C7_bridge_eq_footer_witness :
    JPEGPlugin.fragmented_try_bridge [0xff, 0xd8, 0xff, 0xd9] 0 10 4 =
      JPEGPlugin.find_footer [0xff, 0xd8, 0xff, 0xd9] 0 10 :=
  C7_bridge_eq_footer [0xff, 0xd8, 0xff, 0xd9] 0 10 4 (by decide)
